import Mathlib

/-!
Verification of the log-monitoring subsystem of
`build/android/pylib/android_commands.py`.

The development shallowly embeds the relevant Python code:

* `NewLineNormalizer` and its `write` method (`data.replace('\r\r\n', '\n')`
  forwarded to the wrapped output);
* `AndroidCommands.StartMonitoringLogcat` (the 4-attempt `startup_sync`
  handshake loop over `pexpect.spawn` / `close`);
* `AndroidCommands.WaitForLogMatch` (the timed line-matching loop with
  its timeout accounting and end-of-file resynchronisation);
* `AndroidCommands.SearchLogcatRecord` (the `re.findall`-based record
  search with its optional field filters).

Strings are modelled as `List Char` where character-level structure
matters, times as `Int`, and the spawned `pexpect` handle as an explicit
structure carrying the arguments, timeout and logfile it was created from.
-/

/-! ### NewLineNormalizer

`NewLineNormalizer.write(data)` executes `data.replace('\r\r\n', '\n')`
and forwards the result to the wrapped output.  Python `str.replace`
scans left to right and replaces each non-overlapping occurrence of the
pattern, resuming the scan after the substituted text. -/

/-- The three-character sequence `"\r\r\n"` that the normalizer rewrites. -/
def crcrlf : List Char := ['\r', '\r', '\n']

/-- Left-to-right non-overlapping replacement of `"\r\r\n"` by `"\n"`,
the semantics of Python's `data.replace('\r\r\n', '\n')`. -/
def replaceCRCRLF : List Char → List Char
  | [] => []
  | [c] => [c]
  | [c₁, c₂] => [c₁, c₂]
  | c₁ :: c₂ :: c₃ :: rest =>
    if c₁ = '\r' ∧ c₂ = '\r' ∧ c₃ = '\n' then
      '\n' :: replaceCRCRLF rest
    else
      c₁ :: replaceCRCRLF (c₂ :: c₃ :: rest)

/-- The `NewLineNormalizer` file-like object: it wraps an output sink,
modelled as the list of chunks written to it so far. -/
structure NewLineNormalizer where
  _output : List (List Char)
deriving DecidableEq

/-- `NewLineNormalizer.write`: replace `"\r\r\n"` with `"\n"` in the chunk
and write the result to the wrapped output. -/
def NewLineNormalizer.write (n : NewLineNormalizer) (data : List Char) :
    NewLineNormalizer :=
  { _output := n._output ++ [replaceCRCRLF data] }

/-- All characters the wrapped output has received, in order. -/
def NewLineNormalizer.forwarded (n : NewLineNormalizer) : List Char :=
  n._output.flatten

theorem replaceCRCRLF_append_pat (b : List Char) :
    ∀ a : List Char,
      replaceCRCRLF (a ++ crcrlf ++ b) =
        replaceCRCRLF a ++ '\n' :: replaceCRCRLF b := by
  intro a
  induction a using replaceCRCRLF.induct with
  | case1 =>
    simp [crcrlf, replaceCRCRLF]
  | case2 c =>
    simp [crcrlf, replaceCRCRLF]
  | case3 c₁ c₂ =>
    simp [crcrlf, replaceCRCRLF]
  | case4 c₁ c₂ c₃ rest h ih =>
    obtain ⟨h₁, h₂, h₃⟩ := h
    subst h₁; subst h₂; subst h₃
    simp only [List.cons_append, replaceCRCRLF, and_self, if_true, reduceCtorEq]
    simpa [replaceCRCRLF] using ih
  | case5 c₁ c₂ c₃ rest h ih =>
    simp only [List.cons_append, replaceCRCRLF, if_neg h]
    simpa using ih

theorem replaceCRCRLF_of_not_infix :
    ∀ a : List Char, ¬ crcrlf <:+: a → replaceCRCRLF a = a := by
  intro a
  induction a using replaceCRCRLF.induct with
  | case1 => intro _; rfl
  | case2 c => intro _; rfl
  | case3 c₁ c₂ => intro _; rfl
  | case4 c₁ c₂ c₃ rest h ih =>
    intro hni
    exact absurd ⟨[], rest, by simp [crcrlf, h.1, h.2.1, h.2.2]⟩ hni
  | case5 c₁ c₂ c₃ rest h ih =>
    intro hni
    rw [replaceCRCRLF, if_neg h, ih]
    intro ⟨s, t, hst⟩
    exact hni ⟨c₁ :: s, t, by simp [hst]⟩

/-- C6: every occurrence of `"\r\r\n"` inside a single chunk is rewritten
to `"\n"` by `NewLineNormalizer.write`, and chunks without an occurrence
are forwarded unchanged. -/
theorem C6_write_normalizes_crcrlf (n : NewLineNormalizer)
    (data a b : List Char) :
    (data = a ++ crcrlf ++ b →
      (n.write data).forwarded =
        n.forwarded ++ (replaceCRCRLF a ++ '\n' :: replaceCRCRLF b)) ∧
    (¬ crcrlf <:+: data →
      (n.write data).forwarded = n.forwarded ++ data) := by
  constructor
  · rintro rfl
    have h := replaceCRCRLF_append_pat b a
    simp [NewLineNormalizer.write, NewLineNormalizer.forwarded]
    simpa using h
  · intro hni
    simp [NewLineNormalizer.write, NewLineNormalizer.forwarded,
      replaceCRCRLF_of_not_infix _ hni]

theorem C6_write_normalizes_crcrlf_witness :
    ((NewLineNormalizer.mk []).write ['a', '\r', '\r', '\n', 'b']).forwarded =
      (NewLineNormalizer.mk []).forwarded ++
        (replaceCRCRLF ['a'] ++ '\n' :: replaceCRCRLF ['b']) ∧
    ((NewLineNormalizer.mk []).write ['x', '\r', '\n']).forwarded =
      (NewLineNormalizer.mk []).forwarded ++ ['x', '\r', '\n'] :=
  ⟨(C6_write_normalizes_crcrlf (NewLineNormalizer.mk [])
      ['a', '\r', '\r', '\n', 'b'] ['a'] ['b']).1 rfl,
   (C6_write_normalizes_crcrlf (NewLineNormalizer.mk [])
      ['x', '\r', '\n'] [] []).2 (by decide)⟩

/-- C10: normalization is applied strictly per `write` chunk — writing `a`
then `b` forwards `replaceCRCRLF a ++ replaceCRCRLF b` — and there is a
pair of chunks whose `"\r\r\n"` occurrence is split across the boundary
and therefore passes through unnormalized. -/
theorem C10_write_per_chunk_split_misses (n : NewLineNormalizer) :
    (∀ a b : List Char,
      ((n.write a).write b).forwarded =
        n.forwarded ++ replaceCRCRLF a ++ replaceCRCRLF b) ∧
    (∃ a b : List Char,
      replaceCRCRLF a ++ replaceCRCRLF b ≠ replaceCRCRLF (a ++ b)) := by
  constructor
  · intro a b
    simp [NewLineNormalizer.write, NewLineNormalizer.forwarded]
  · exact ⟨['\r'], ['\r', '\n'], by decide⟩

/-! ### pexpect handles and the logcat monitoring session

`StartMonitoringLogcat` spawns `adb logcat` through `pexpect.spawn` and
synchronizes with it by emitting the marker `'startup_sync'` via
`RunShellCommand('log startup_sync')`, retrying the spawn up to 4 times;
`WaitForLogMatch` reads lines from the spawned handle with a cumulative
timeout, re-spawning the handle on end-of-file. -/

/-- `constants.ADB_PATH`, the command `pexpect.spawn` is given. -/
def ADB_PATH : String := "adb"

/-- A `pexpect.spawn` handle: pexpect stores `self.args = [command] + args`
together with the `timeout` and `logfile` keyword arguments.  `id`
distinguishes distinct spawned subprocesses. -/
structure PexpectHandle where
  id : Nat
  args : List String
  timeout : Int
  logfile : Option NewLineNormalizer
deriving DecidableEq

/-- `pexpect.spawn(command, args, timeout=timeout, logfile=logfile)`. -/
def pexpectSpawn (command : String) (args : List String) (timeout : Int)
    (logfile : Option NewLineNormalizer) (id : Nat) : PexpectHandle :=
  { id := id, args := command :: args, timeout := timeout, logfile := logfile }

/-- Externally observable subprocess operations, in program order:
`pexpect.spawn(...)` and `handle.close(force=True)`. -/
inductive LogcatOp where
  | spawnOp (h : PexpectHandle)
  | closeOp (h : PexpectHandle)
deriving DecidableEq

def LogcatOp.isSpawn : LogcatOp → Bool
  | spawnOp _ => true
  | closeOp _ => false

/-- The marker emitted by `RunShellCommand('log startup_sync')`. -/
def syncMarker : String := "startup_sync"

/-- The argument list built by `StartMonitoringLogcat` before spawning:
target arguments, then `['logcat', '-v', 'threadtime']`, then the given
filters, or `'*:v'` when the filter list is empty (Python falsiness of
`[]`). -/
def logcatArgs (targetArgs filters : List String) : List String :=
  targetArgs ++ ["logcat", "-v", "threadtime"] ++
    (if filters.isEmpty then ["*:v"] else filters)

/-- Result of the `StartMonitoringLogcat` handshake: `session` is the
synchronized handle (`none` models `sys.exit(1)`), `trace` the subprocess
operations performed, `markers` the marker strings emitted, one per
attempt. -/
structure StartResult where
  session : Option PexpectHandle
  trace : List LogcatOp
  markers : List String
deriving DecidableEq

/-- The `for _ in range(4)` synchronization loop of `StartMonitoringLogcat`:
each attempt spawns `pexpect.spawn(ADB_PATH, args, timeout=10,
logfile=logfile)`, emits the marker, and checks
`self._logcat.expect(['startup_sync', pexpect.EOF, pexpect.TIMEOUT]) == 0`
(modelled by `outcomes i`); a failed attempt runs
`self._logcat.close(force=True)` before the loop continues, and loop
exhaustion runs `sys.exit(1)`. -/
def startupSyncLoop (args : List String) (logfile : Option NewLineNormalizer)
    (outcomes : Nat → Bool) : Nat → Nat → Nat → StartResult
  | 0, _, _ => { session := none, trace := [], markers := [] }
  | tries+1, nextId, i =>
    let h := pexpectSpawn ADB_PATH args 10 logfile nextId
    if outcomes i then
      { session := some h, trace := [.spawnOp h], markers := [syncMarker] }
    else
      let r := startupSyncLoop args logfile outcomes tries (nextId+1) (i+1)
      { session := r.session,
        trace := .spawnOp h :: .closeOp h :: r.trace,
        markers := syncMarker :: r.markers }

/-- `AndroidCommands.StartMonitoringLogcat` (the spawn-and-synchronize
part; the preceding `logcat -c` control command has no bearing on the
handshake).  The `logfile` argument is the already-wrapped
`NewLineNormalizer`, when a logfile was given. -/
def StartMonitoringLogcat (targetArgs filters : List String)
    (logfile : Option NewLineNormalizer) (outcomes : Nat → Bool)
    (nextId : Nat) : StartResult :=
  startupSyncLoop (logcatArgs targetArgs filters) logfile outcomes 4 nextId 0

/-- An abstract compiled regular expression: `pattern` is its source text
(`re.pattern`), `search` models `re.search` on a line, returning the
matched text when there is a match. -/
structure CompiledRe where
  pattern : String
  search : String → Option String

/-- What `self._logcat.expect(PEXPECT_LINE_RE, ...)` can deliver: a
complete log line, or `pexpect.EOF`. -/
inductive StreamEvent where
  | line (text : String)
  | eofEv
deriving DecidableEq

/-- The caller-visible outcome of `WaitForLogMatch`: the success match
object, `None` (the error pattern matched), or the re-raised
`pexpect.TIMEOUT` whose message carries the timeout value and the awaited
success pattern. -/
inductive WaitResult where
  | success (m : String)
  | noMatch
  | timeoutExceeded (timeout : Int) (pattern : String)
deriving DecidableEq

/-- The read loop of `AndroidCommands.WaitForLogMatch`.  `events` are the
successive deliveries of the logcat stream as `(arrival time, event)`
pairs; `now` is the current wall-clock time (`time.time()`), initially
`t0`.  Before each read, `time_remaining = t0 + timeout - time.time()` is
recomputed; if it is negative, `pexpect.TIMEOUT` is raised (and re-raised
with a message naming `timeout` and `success_re.pattern`); `expect` then
delivers the next event only if it arrives within `time_remaining`,
otherwise it raises `pexpect.TIMEOUT` itself.  A line is checked against
`error_re` (when given) and then `success_re`; `pexpect.EOF` re-spawns
`pexpect.spawn(ADB_PATH, self._logcat.args[1:],
timeout=self._logcat.timeout, logfile=self._logcat.logfile)` and the loop
resumes.  Returns the result, the final handle, and the subprocess
operations performed. -/
def waitLoop (success_re : CompiledRe) (error_re : Option CompiledRe)
    (t0 timeout : Int) :
    PexpectHandle → Nat → List (Int × StreamEvent) → Int →
      WaitResult × PexpectHandle × List LogcatOp
  | h, _, [], _ =>
    (.timeoutExceeded timeout success_re.pattern, h, [])
  | h, nextId, (t, ev) :: rest, now =>
    let time_remaining := t0 + timeout - now
    if time_remaining < 0 then
      (.timeoutExceeded timeout success_re.pattern, h, [])
    else if t ≤ now + time_remaining then
      match ev with
      | .line text =>
        let error_match := match error_re with
          | some er => er.search text
          | none => none
        if error_match.isSome then
          (.noMatch, h, [])
        else
          match success_re.search text with
          | some m => (.success m, h, [])
          | none => waitLoop success_re error_re t0 timeout h nextId rest t
      | .eofEv =>
        let h2 := pexpectSpawn ADB_PATH (h.args.drop 1) h.timeout h.logfile
          nextId
        let r := waitLoop success_re error_re t0 timeout h2 (nextId+1) rest t
        (r.1, r.2.1, .spawnOp h2 :: r.2.2)
    else
      (.timeoutExceeded timeout success_re.pattern, h, [])

/-- `AndroidCommands.WaitForLogMatch`, entered at wall-clock time `t0`
(`t0 = time.time()`) with the monitoring handle `h` already present. -/
def WaitForLogMatch (success_re : CompiledRe) (error_re : Option CompiledRe)
    (timeout : Int) (h : PexpectHandle) (nextId : Nat)
    (events : List (Int × StreamEvent)) (t0 : Int) :
    WaitResult × PexpectHandle × List LogcatOp :=
  waitLoop success_re error_re t0 timeout h nextId events t0

/-- Concrete success pattern `/FOO/` used in witnesses: matches any line
containing `"FOO"`. -/
def reFOO : CompiledRe :=
  { pattern := "FOO",
    search := fun s =>
      if "FOO".toList <:+: s.toList then some "FOO" else none }

/-- Concrete error pattern `/ERR/` used in witnesses: matches any line
containing `"ERR"`. -/
def reERR : CompiledRe :=
  { pattern := "ERR",
    search := fun s =>
      if "ERR".toList <:+: s.toList then some "ERR" else none }

theorem waitLoop_result_shape (s : CompiledRe) (er : Option CompiledRe)
    (t0 tmo : Int) :
    ∀ (events : List (Int × StreamEvent)) (h : PexpectHandle)
      (nextId : Nat) (now : Int),
      (∃ m, (waitLoop s er t0 tmo h nextId events now).1 = .success m) ∨
      (waitLoop s er t0 tmo h nextId events now).1 = .noMatch ∨
      (waitLoop s er t0 tmo h nextId events now).1 =
        .timeoutExceeded tmo s.pattern := by
  intro events
  induction events with
  | nil => intro h nid now; simp [waitLoop]
  | cons e rest ih =>
    rintro h nid now
    obtain ⟨t, ev⟩ := e
    cases ev with
    | line text =>
      simp only [waitLoop]
      split
      · simp
      · split
        · split
          · simp
          · cases hs : s.search text with
            | some m => simp [hs]
            | none => simpa [hs] using ih h nid t
        · simp
    | eofEv =>
      simp only [waitLoop]
      split
      · simp
      · split
        · exact ih _ _ _
        · simp

theorem waitLoop_trace_all_spawn (s : CompiledRe) (er : Option CompiledRe)
    (t0 tmo : Int) :
    ∀ (events : List (Int × StreamEvent)) (h : PexpectHandle)
      (nextId : Nat) (now : Int),
      ((waitLoop s er t0 tmo h nextId events now).2.2.all
        LogcatOp.isSpawn) = true := by
  intro events
  induction events with
  | nil => intro h nid now; simp [waitLoop]
  | cons e rest ih =>
    rintro h nid now
    obtain ⟨t, ev⟩ := e
    cases ev with
    | line text =>
      simp only [waitLoop]
      split
      · simp
      · split
        · split
          · simp
          · cases hs : s.search text with
            | some m => simp [hs]
            | none => simpa [hs] using ih h nid t
        · simp
    | eofEv =>
      simp only [waitLoop]
      split
      · simp
      · split
        · simpa [LogcatOp.isSpawn] using ih _ _ _
        · simp

theorem startupSyncLoop_spawn_le (args : List String)
    (lf : Option NewLineNormalizer) (oc : Nat → Bool) :
    ∀ (tries nid i : Nat),
      ((startupSyncLoop args lf oc tries nid i).trace.filter
        LogcatOp.isSpawn).length ≤ tries := by
  intro tries
  induction tries with
  | zero => intro nid i; simp [startupSyncLoop]
  | succ n ih =>
    intro nid i
    by_cases h : oc i
    · simp [startupSyncLoop, h, LogcatOp.isSpawn]
    · simp [startupSyncLoop, h, List.filter_cons, LogcatOp.isSpawn]
      have := ih (nid+1) (i+1)
      omega

theorem startupSyncLoop_all_fail (args : List String)
    (lf : Option NewLineNormalizer) (oc : Nat → Bool) :
    ∀ (tries nid i : Nat), (∀ j, j < tries → oc (i + j) = false) →
      (startupSyncLoop args lf oc tries nid i).session = none ∧
      ((startupSyncLoop args lf oc tries nid i).trace.filter
        LogcatOp.isSpawn).length = tries := by
  intro tries
  induction tries with
  | zero => intro nid i _; simp [startupSyncLoop]
  | succ n ih =>
    intro nid i hall
    have h0 : oc i = false := by simpa using hall 0 (Nat.succ_pos n)
    have hrest : ∀ j, j < n → oc ((i + 1) + j) = false := by
      intro j hj
      have := hall (j + 1) (by omega)
      simpa [Nat.add_assoc, Nat.add_comm 1 j] using this
    obtain ⟨hs, hc⟩ := ih (nid+1) (i+1) hrest
    simp only [startupSyncLoop, h0, Bool.false_eq_true, if_false,
      List.filter_cons, LogcatOp.isSpawn, List.length_cons]
    constructor
    · exact hs
    · simp [hc]

theorem startupSyncLoop_some_success (args : List String)
    (lf : Option NewLineNormalizer) (oc : Nat → Bool) :
    ∀ (tries nid i : Nat), (∃ j, j < tries ∧ oc (i + j) = true) →
      ((startupSyncLoop args lf oc tries nid i).session).isSome := by
  intro tries
  induction tries with
  | zero => rintro nid i ⟨j, hj, _⟩; omega
  | succ n ih =>
    rintro nid i ⟨j, hj, hoc⟩
    by_cases h0 : oc i
    · simp [startupSyncLoop, h0]
    · have hj0 : j ≠ 0 := by
        rintro rfl; simp at hoc; exact h0 (by simpa using hoc)
      obtain ⟨j', rfl⟩ := Nat.exists_eq_succ_of_ne_zero hj0
      have : oc ((i + 1) + j') = true := by
        simpa [Nat.add_assoc, Nat.add_comm 1 j'] using hoc
      have := ih (nid+1) (i+1) ⟨j', by omega, this⟩
      simpa [startupSyncLoop, h0] using this

/-- Checks that a trace is a sequence of `spawn h; close h` pairs,
optionally ending in a final spawn that is never closed: the shape in
which every replaced handle was closed before its replacement was
spawned. -/
def properClosePairs : List LogcatOp → Bool
  | [] => true
  | [.spawnOp _] => true
  | .spawnOp h :: .closeOp h' :: rest => h == h' && properClosePairs rest
  | _ => false

theorem startupSyncLoop_properClosePairs (args : List String)
    (lf : Option NewLineNormalizer) (oc : Nat → Bool) :
    ∀ (tries nid i : Nat),
      properClosePairs (startupSyncLoop args lf oc tries nid i).trace = true := by
  intro tries
  induction tries with
  | zero => intro nid i; simp [startupSyncLoop, properClosePairs]
  | succ n ih =>
    intro nid i
    by_cases h : oc i
    · simp [startupSyncLoop, h, properClosePairs]
    · simp [startupSyncLoop, h, properClosePairs, ih (nid+1) (i+1)]

/-- C1: when an error pattern is supplied, `WaitForLogMatch` checks it on
each incoming line before the success pattern, so a line matching the
error pattern makes the call return `None` (`noMatch`) immediately —
whatever the success pattern would match on this line or on any later
line of the stream. -/
theorem C1_error_checked_before_success (success_re er : CompiledRe)
    (timeout t0 t : Int) (h : PexpectHandle) (nextId : Nat) (text : String)
    (rest : List (Int × StreamEvent)) (e : String)
    (hto : 0 ≤ timeout) (ht : t ≤ t0 + timeout)
    (herr : er.search text = some e) :
    (WaitForLogMatch success_re (some er) timeout h nextId
        ((t, .line text) :: rest) t0).1 = .noMatch := by
  simp only [WaitForLogMatch, waitLoop]
  rw [if_neg (by omega), if_pos (by omega)]
  simp [herr]

theorem C1_error_checked_before_success_witness :
    (WaitForLogMatch reFOO (some reERR) 10 ⟨0, ["adb", "logcat"], 10, none⟩ 1
        [((1 : Int), .line "ERR and FOO"), ((2 : Int), .line "FOO here")]
        0).1 = .noMatch :=
  C1_error_checked_before_success reFOO reERR 10 0 1
    ⟨0, ["adb", "logcat"], 10, none⟩ 1 "ERR and FOO"
    [((2 : Int), .line "FOO here")] "ERR" (by decide) (by decide) (by decide)

/-- C2: the timeout budget of `WaitForLogMatch` is measured from the
single instant of call entry and is not reset by an end-of-stream resync:
with the deadline `t0 + timeout`, a success line arriving at `t` after a
resync still succeeds when `t ≤ t0 + timeout` and times out when
`t0 + timeout < t`, whatever the resync instant `te` was; and every
raised timeout failure carries the timeout value and the success pattern
that was being awaited. -/
theorem C2_timeout_budget (s : CompiledRe) (tmo t0 te t : Int)
    (h : PexpectHandle) (nextId : Nat) (m mm : String)
    (hto : 0 ≤ tmo) (hte : te ≤ t0 + tmo)
    (hsearch : s.search m = some mm) :
    (∀ (events : List (Int × StreamEvent)) (h' : PexpectHandle)
        (nid : Nat) (p : Int) (q : String),
      (WaitForLogMatch s none tmo h' nid events t0).1 =
          .timeoutExceeded p q →
        p = tmo ∧ q = s.pattern) ∧
    (t ≤ t0 + tmo →
      (WaitForLogMatch s none tmo h nextId
          [(te, .eofEv), (t, .line m)] t0).1 = .success mm) ∧
    (t0 + tmo < t →
      (WaitForLogMatch s none tmo h nextId
          [(te, .eofEv), (t, .line m)] t0).1 =
        .timeoutExceeded tmo s.pattern) := by
  refine ⟨?_, ?_, ?_⟩
  · intro events h' nid p q hres
    rcases waitLoop_result_shape s none t0 tmo events h' nid t0 with
      ⟨m', hm'⟩ | hnm | hto'
    · rw [WaitForLogMatch] at hres; rw [hres] at hm'; exact absurd hm' (by simp)
    · rw [WaitForLogMatch] at hres; rw [hres] at hnm; exact absurd hnm (by simp)
    · rw [WaitForLogMatch] at hres; rw [hres] at hto'
      exact ⟨(WaitResult.timeoutExceeded.injEq _ _ _ _ |>.mp hto').1,
        (WaitResult.timeoutExceeded.injEq _ _ _ _ |>.mp hto').2⟩
  · intro hlt
    simp only [WaitForLogMatch, waitLoop]
    rw [if_neg (by omega), if_pos (by omega)]
    simp only []
    rw [if_neg (by omega), if_pos (by omega)]
    simp [hsearch]
  · intro hgt
    simp only [WaitForLogMatch, waitLoop]
    rw [if_neg (by omega), if_pos (by omega)]
    simp only []
    rw [if_neg (by omega), if_neg (by omega)]

theorem C2_timeout_budget_witness :
    (WaitForLogMatch reFOO none 10 ⟨0, ["adb", "logcat"], 10, none⟩ 1
        [((3 : Int), .eofEv), ((5 : Int), .line "FOO here")] 0).1 =
      .success "FOO" :=
  (C2_timeout_budget reFOO 10 0 3 5 ⟨0, ["adb", "logcat"], 10, none⟩ 1
      "FOO here" "FOO" (by decide) (by decide) (by decide)).2.1 (by decide)

/-- C3: `StartMonitoringLogcat` makes at most 4 synchronization attempts
(at most 4 spawns); if the marker echoes back on one of the first 4
attempts the session is synchronized, and if all 4 attempts fail the run
is fatally terminated (`sys.exit(1)`, modelled as `session = none`) after
exactly 4 spawns, with no 5th spawn. -/
theorem C3_at_most_four_attempts (targetArgs filters : List String)
    (lf : Option NewLineNormalizer) (outcomes : Nat → Bool) (nextId : Nat) :
    ((StartMonitoringLogcat targetArgs filters lf outcomes nextId).trace.filter
        LogcatOp.isSpawn).length ≤ 4 ∧
    ((∃ i, i < 4 ∧ outcomes i = true) →
      ((StartMonitoringLogcat targetArgs filters lf outcomes
        nextId).session).isSome) ∧
    ((∀ i, i < 4 → outcomes i = false) →
      (StartMonitoringLogcat targetArgs filters lf outcomes nextId).session =
        none ∧
      ((StartMonitoringLogcat targetArgs filters lf outcomes
          nextId).trace.filter LogcatOp.isSpawn).length = 4) := by
  refine ⟨startupSyncLoop_spawn_le _ _ _ 4 nextId 0, ?_, ?_⟩
  · rintro ⟨i, hi, hoc⟩
    exact startupSyncLoop_some_success _ _ _ 4 nextId 0 ⟨i, hi, by simpa using hoc⟩
  · intro hall
    exact startupSyncLoop_all_fail _ _ _ 4 nextId 0 (by simpa using hall)

theorem C3_at_most_four_attempts_witness :
    (((StartMonitoringLogcat [] [] none (fun i => i == 1) 0).session).isSome ∧
      ((StartMonitoringLogcat [] [] none (fun _ => false) 0).session = none ∧
        ((StartMonitoringLogcat [] [] none (fun _ => false) 0).trace.filter
          LogcatOp.isSpawn).length = 4)) :=
  ⟨(C3_at_most_four_attempts [] [] none (fun i => i == 1) 0).2.1
      ⟨1, by decide, by decide⟩,
   (C3_at_most_four_attempts [] [] none (fun _ => false) 0).2.2
      (fun i _ => rfl)⟩

/-- C4: when `pexpect.EOF` is delivered during `WaitForLogMatch`, no error
is surfaced: the session re-spawns the log reader with the same arguments,
timeout and logfile as the handle it replaces, and the in-flight call
resumes reading and produces exactly the result of continuing on the rest
of the stream. -/
theorem C4_eof_resync_transparent (s : CompiledRe) (er : Option CompiledRe)
    (tmo t0 t now : Int) (h : PexpectHandle) (tl : List String)
    (nextId : Nat) (rest : List (Int × StreamEvent))
    (hargs : h.args = ADB_PATH :: tl)
    (hrem : ¬ t0 + tmo - now < 0) (ht : t ≤ now + (t0 + tmo - now)) :
    ∃ h2 : PexpectHandle,
      h2.args = h.args ∧ h2.timeout = h.timeout ∧ h2.logfile = h.logfile ∧
      (waitLoop s er t0 tmo h nextId ((t, .eofEv) :: rest) now).1 =
        (waitLoop s er t0 tmo h2 (nextId + 1) rest t).1 := by
  refine ⟨pexpectSpawn ADB_PATH (h.args.drop 1) h.timeout h.logfile nextId,
    ?_, rfl, rfl, ?_⟩
  · simp [pexpectSpawn, hargs]
  · simp only [waitLoop]
    rw [if_neg hrem, if_pos ht]

theorem C4_eof_resync_transparent_witness :
    ∃ h2 : PexpectHandle,
      h2.args = (⟨0, ["adb", "logcat"], 10, none⟩ : PexpectHandle).args ∧
      h2.timeout = (⟨0, ["adb", "logcat"], 10, none⟩ : PexpectHandle).timeout ∧
      h2.logfile = (⟨0, ["adb", "logcat"], 10, none⟩ : PexpectHandle).logfile ∧
      (waitLoop reFOO none 0 10 ⟨0, ["adb", "logcat"], 10, none⟩ 1
          [((2 : Int), .eofEv), ((3 : Int), .line "FOO here")] 0).1 =
        (waitLoop reFOO none 0 10 h2 2
          [((3 : Int), .line "FOO here")] 2).1 :=
  C4_eof_resync_transparent reFOO none 10 0 2 0
    ⟨0, ["adb", "logcat"], 10, none⟩ ["logcat"] 1
    [((3 : Int), .line "FOO here")] rfl (by decide) (by decide)

/-- C5 counterexample: in a concrete `WaitForLogMatch` run that hits
end-of-stream, the handle is replaced by a newly spawned one, yet the
trace of subprocess operations contains no `close` of the prior handle:
the claim that every replacement closes the prior handle first is false
on the end-of-stream resync path. -/
theorem C5_counterexample :
    (WaitForLogMatch reFOO none 10 ⟨0, ["adb", "logcat"], 10, none⟩ 1
        [((2 : Int), .eofEv), ((3 : Int), .line "FOO here")] 0).2.1 ≠
      ⟨0, ["adb", "logcat"], 10, none⟩ ∧
    (WaitForLogMatch reFOO none 10 ⟨0, ["adb", "logcat"], 10, none⟩ 1
        [((2 : Int), .eofEv), ((3 : Int), .line "FOO here")] 0).2.2 =
      [.spawnOp ⟨1, ["adb", "logcat"], 10, none⟩] ∧
    ∀ op ∈ (WaitForLogMatch reFOO none 10 ⟨0, ["adb", "logcat"], 10, none⟩ 1
        [((2 : Int), .eofEv), ((3 : Int), .line "FOO here")] 0).2.2,
      op ≠ .closeOp ⟨0, ["adb", "logcat"], 10, none⟩ := by
  refine ⟨by decide, by decide, ?_⟩
  decide

/-- C5 amended: during the startup handshake every failed attempt closes
its handle before the next attempt spawns a replacement
(`close(force=True)` precedes the next `spawn`), but on the end-of-stream
resync inside `WaitForLogMatch` the replacement is spawned without the
prior handle ever being closed — the resync trace consists of spawns
only. -/
theorem C5_amended_close_only_in_handshake :
    (∀ (targetArgs filters : List String) (lf : Option NewLineNormalizer)
        (outcomes : Nat → Bool) (nextId : Nat),
      properClosePairs
        (StartMonitoringLogcat targetArgs filters lf outcomes nextId).trace =
        true) ∧
    (∀ (s : CompiledRe) (er : Option CompiledRe) (t0 tmo : Int)
        (h : PexpectHandle) (nextId : Nat)
        (events : List (Int × StreamEvent)) (now : Int),
      ((waitLoop s er t0 tmo h nextId events now).2.2.all
        LogcatOp.isSpawn) = true) := by
  constructor
  · intro targetArgs filters lf outcomes nextId
    exact startupSyncLoop_properClosePairs _ _ _ 4 nextId 0
  · intro s er t0 tmo h nextId events now
    exact waitLoop_trace_all_spawn s er t0 tmo events h nextId now

/-- C8: with no error pattern (`error_re = None`), the `None` outcome of
`WaitForLogMatch` is unreachable: the call either returns a success match
or raises the timeout failure naming the awaited pattern. -/
theorem C8_error_none_never_noMatch (s : CompiledRe) (tmo : Int)
    (h : PexpectHandle) (nextId : Nat) (events : List (Int × StreamEvent))
    (t0 : Int) :
    (WaitForLogMatch s none tmo h nextId events t0).1 ≠ .noMatch ∧
    ((∃ m, (WaitForLogMatch s none tmo h nextId events t0).1 = .success m) ∨
      (WaitForLogMatch s none tmo h nextId events t0).1 =
        .timeoutExceeded tmo s.pattern) := by
  rcases waitLoop_result_shape s none t0 tmo events h nextId t0 with
    ⟨m, hm⟩ | hnm | hto
  · exact ⟨by rw [WaitForLogMatch, hm]; simp, .inl ⟨m, by rw [WaitForLogMatch, hm]⟩⟩
  · exfalso
    -- with `error_re = none` the error branch can never fire; show the
    -- `noMatch` case of the shape lemma is impossible
    revert hnm
    have : ∀ (ev : List (Int × StreamEvent)) (h' : PexpectHandle)
        (nid : Nat) (now : Int),
        (waitLoop s none t0 tmo h' nid ev now).1 ≠ .noMatch := by
      intro ev
      induction ev with
      | nil => intro h' nid now; simp [waitLoop]
      | cons e rest ih =>
        rintro h' nid now
        obtain ⟨t, evt⟩ := e
        cases evt with
        | line text =>
          simp only [waitLoop]
          split
          · simp
          · split
            · simp only [Option.isSome_none, Bool.false_eq_true, if_false]
              cases hs : s.search text with
              | some m => simp [hs]
              | none => simpa [hs] using ih h' nid t
            · simp
        | eofEv =>
          simp only [waitLoop]
          split
          · simp
          · split
            · exact ih _ _ _
            · simp
    exact this events h nextId t0
  · exact ⟨by rw [WaitForLogMatch, hto]; simp, .inr (by rw [WaitForLogMatch, hto])⟩

/-- C9 counterexample: in a concrete run of the handshake that makes more
than one synchronization attempt, the marker strings emitted on the first
and second attempts are equal (both are the constant `'startup_sync'`),
so markers of distinct attempts do not differ. -/
theorem C9_counterexample :
    (StartMonitoringLogcat [] [] none (fun _ => false) 0).markers.length = 4 ∧
    (StartMonitoringLogcat [] [] none (fun _ => false) 0).markers.getD 0 "" =
      (StartMonitoringLogcat [] [] none (fun _ => false) 0).markers.getD 1 "" := by
  constructor
  · decide
  · decide

/-- C9 amended: the synchronization marker is not unique per attempt —
every marker emitted during any handshake (and hence across retries and
across sessions) is the one fixed string `'startup_sync'`. -/
theorem C9_amended_marker_constant (targetArgs filters : List String)
    (lf : Option NewLineNormalizer) (outcomes : Nat → Bool) (nextId : Nat)
    (m : String)
    (hm : m ∈ (StartMonitoringLogcat targetArgs filters lf outcomes
      nextId).markers) :
    m = syncMarker := by
  have : ∀ (tries nid i : Nat),
      ∀ m' ∈ (startupSyncLoop (logcatArgs targetArgs filters) lf outcomes
        tries nid i).markers, m' = syncMarker := by
    intro tries
    induction tries with
    | zero => intro nid i m' hm'; simp [startupSyncLoop] at hm'
    | succ n ih =>
      intro nid i m' hm'
      by_cases h : outcomes i
      · simp [startupSyncLoop, h] at hm'; exact hm'
      · simp only [startupSyncLoop, h, Bool.false_eq_true, if_false,
          List.mem_cons] at hm'
        rcases hm' with rfl | hm'
        · rfl
        · exact ih (nid+1) (i+1) m' hm'
  exact this 4 nextId 0 m hm

theorem C9_amended_marker_constant_witness :
    "startup_sync" = syncMarker :=
  C9_amended_marker_constant [] [] none (fun _ => false) 0 "startup_sync"
    (by decide)

/-! ### SearchLogcatRecord

`SearchLogcatRecord` runs
`re.findall('(\d+)\s+(\d+)\s+([A-Z])\s+([A-Za-z]+)\s*:(.*)$', record,
re.MULTILINE)` and filters the resulting 5-tuples.  The pattern is
deterministic (no character class overlaps a neighbouring one), so each
quantifier can be matched greedily with no backtracking; `re.findall`
scans left to right, taking the leftmost match at each position and
resuming after it. -/

/-- Python `re` `\s` (ASCII): space, tab, newline, carriage return,
vertical tab, form feed. -/
def pyIsSpace (c : Char) : Bool :=
  c == ' ' || c == '\t' || c == '\n' || c == '\r' || c == '\x0b' || c == '\x0c'

/-- Python `re` `[A-Za-z]`. -/
def pyIsAlpha (c : Char) : Bool :=
  c.isUpper || c.isLower

/-- The five captured groups of one match of the record pattern. -/
structure LogcatFields where
  tid : List Char
  pid : List Char
  log_lev : List Char
  comp : List Char
  msg : List Char
deriving DecidableEq

/-- Attempt to match
`(\d+)\s+(\d+)\s+([A-Z])\s+([A-Za-z]+)\s*:(.*)$` (with `$` in MULTILINE
mode and `.` not matching a newline) at the head of `l`; on success
return the groups and the unconsumed suffix. -/
def tryMatchAt (l : List Char) : Option (LogcatFields × List Char) :=
  let d1 := l.takeWhile Char.isDigit
  let r1 := l.dropWhile Char.isDigit
  if d1.isEmpty then none else
  let s1 := r1.takeWhile pyIsSpace
  let r2 := r1.dropWhile pyIsSpace
  if s1.isEmpty then none else
  let d2 := r2.takeWhile Char.isDigit
  let r3 := r2.dropWhile Char.isDigit
  if d2.isEmpty then none else
  let s2 := r3.takeWhile pyIsSpace
  let r4 := r3.dropWhile pyIsSpace
  if s2.isEmpty then none else
  match r4 with
  | [] => none
  | lev :: r5 =>
    if lev.isUpper then
      let s3 := r5.takeWhile pyIsSpace
      let r6 := r5.dropWhile pyIsSpace
      if s3.isEmpty then none else
      let w := r6.takeWhile pyIsAlpha
      let r7 := r6.dropWhile pyIsAlpha
      if w.isEmpty then none else
      let r8 := r7.dropWhile pyIsSpace
      match r8 with
      | ':' :: r9 =>
        let msg := r9.takeWhile (fun c => c != '\n')
        let r10 := r9.dropWhile (fun c => c != '\n')
        some (⟨d1, d2, [lev], w, msg⟩, r10)
      | _ => none
    else none

/-- `re.findall` for the record pattern: scan left to right; at each
position take the match starting there if any and resume after it,
otherwise advance one character.  `fuel` bounds the recursion; since each
step consumes at least one character (`tryMatchAt_length_lt`), fuel equal
to the list length is exact (`findAllAux_congr`). -/
def findAllAux : Nat → List Char → List LogcatFields
  | 0, _ => []
  | _, [] => []
  | fuel+1, c :: rest =>
    match tryMatchAt (c :: rest) with
    | some (g, r) => g :: findAllAux fuel r
    | none => findAllAux fuel rest

def findAll (l : List Char) : List LogcatFields :=
  findAllAux l.length l

theorem length_dropWhile_le (p : Char → Bool) (l : List Char) :
    (l.dropWhile p).length ≤ l.length := by
  induction l with
  | nil => simp
  | cons c rest ih =>
    by_cases h : p c
    · simp only [List.dropWhile_cons, h, if_true]
      exact Nat.le_succ_of_le ih
    · simp [List.dropWhile_cons, h]

theorem tryMatchAt_length_lt {l : List Char} {g : LogcatFields}
    {r : List Char} (h : tryMatchAt l = some (g, r)) : r.length < l.length := by
  simp only [tryMatchAt] at h
  split at h
  · exact absurd h (by simp)
  · rename_i hd1
    split at h
    · exact absurd h (by simp)
    · rename_i hs1
      split at h
      · exact absurd h (by simp)
      · rename_i hd2
        split at h
        · exact absurd h (by simp)
        · rename_i hs2
          split at h
          · exact absurd h (by simp)
          · rename_i lev r5 heq
            split at h
            · split at h
              · exact absurd h (by simp)
              · rename_i hs3
                split at h
                · exact absurd h (by simp)
                · rename_i hw
                  split at h
                  · rename_i r9 heq9
                    simp only [Option.some.injEq, Prod.mk.injEq] at h
                    obtain ⟨-, hr⟩ := h
                    have h9 : (':' :: r9) <:+ l := by
                      rw [← heq9]
                      refine (List.dropWhile_suffix _).trans ?_
                      refine (List.dropWhile_suffix _).trans ?_
                      refine (List.dropWhile_suffix _).trans ?_
                      refine (List.suffix_cons lev r5).trans ?_
                      rw [← heq]
                      refine (List.dropWhile_suffix _).trans ?_
                      refine (List.dropWhile_suffix _).trans ?_
                      refine (List.dropWhile_suffix _).trans ?_
                      exact List.dropWhile_suffix _
                    have h9l := h9.length_le
                    have hrl : r.length ≤ r9.length := by
                      rw [← hr]; exact (List.dropWhile_suffix _).length_le
                    simp only [List.length_cons] at h9l
                    omega
                  · exact absurd h (by simp)
            · exact absurd h (by simp)

theorem findAllAux_congr :
    ∀ (f₁ f₂ : Nat) (l : List Char), l.length ≤ f₁ → l.length ≤ f₂ →
      findAllAux f₁ l = findAllAux f₂ l := by
  intro f₁
  induction f₁ with
  | zero =>
    intro f₂ l h₁ _
    have : l = [] := List.length_eq_zero.mp (Nat.le_zero.mp h₁)
    subst this
    cases f₂ <;> simp [findAllAux]
  | succ n ih =>
    intro f₂ l h₁ h₂
    cases l with
    | nil => cases f₂ <;> simp [findAllAux]
    | cons c rest =>
      obtain ⟨m, rfl⟩ : ∃ m, f₂ = m + 1 := by
        cases f₂
        · simp at h₂
        · exact ⟨_, rfl⟩
      simp only [findAllAux]
      cases hm : tryMatchAt (c :: rest) with
      | some gr =>
        obtain ⟨g, r⟩ := gr
        have hlt := tryMatchAt_length_lt hm
        simp only [List.length_cons] at hlt h₁ h₂
        show g :: findAllAux n r = g :: findAllAux m r
        rw [ih m r (by omega) (by omega)]
      | none =>
        simp only [List.length_cons] at h₁ h₂
        exact ih m rest (by omega) (by omega)

/-- Python-style optional filter check, `(not f or f == field)`: a `None`
filter — or an empty string, which is falsy in Python — passes
unconditionally, otherwise the filter must equal the field exactly. -/
def optFilterPasses (filt : Option String) (field : List Char) : Bool :=
  match filt with
  | none => true
  | some s => s.isEmpty || s.toList == field

/-- `AndroidCommands.SearchLogcatRecord(record, message, thread_id,
proc_id, log_level, component)`: `re.findall` the record pattern over the
whole record, keeping the matches whose fields pass every supplied filter
and whose message group contains `message` (`msg.find(message) > -1`). -/
def SearchLogcatRecord (record message : String)
    (thread_id proc_id log_level component : Option String) :
    List LogcatFields :=
  (findAll record.toList).filter fun f =>
    optFilterPasses thread_id f.tid &&
    optFilterPasses proc_id f.pid &&
    optFilterPasses log_level f.log_lev &&
    optFilterPasses component f.comp &&
    decide (message.toList <:+: f.msg)

/-- Modelled from the claim's words, for comparison with
`SearchLogcatRecord`: one entry per record line (split on newlines) whose
whole line matches the grammar `<digits> <digits> <single-letter-level>
<word>: <rest-of-line>` from its start, then the same message and filter
conditions. -/
def SearchRecordSpec (record message : String)
    (thread_id proc_id log_level component : Option String) :
    List LogcatFields :=
  ((record.toList.splitOn '\n').filterMap fun line =>
    (tryMatchAt line).bind fun gr =>
      if gr.2.isEmpty then some gr.1 else none).filter fun f =>
    optFilterPasses thread_id f.tid &&
    optFilterPasses proc_id f.pid &&
    optFilterPasses log_level f.log_lev &&
    optFilterPasses component f.comp &&
    decide (message.toList <:+: f.msg)

/-- C7 counterexample: on a record whose single line starts with non-digit
characters, the line does not match the grammar from its start — on the
claim's per-line grammar reading (`SearchRecordSpec`) it contributes no
entry — yet `SearchLogcatRecord` returns an entry for it, because the
pattern is searched anywhere in the record, not anchored to line starts. -/
theorem C7_counterexample :
    SearchLogcatRecord "xx123 456 I Chrome: hello" "hello"
        none none none none ≠
      SearchRecordSpec "xx123 456 I Chrome: hello" "hello"
        none none none none ∧
    SearchLogcatRecord "xx123 456 I Chrome: hello" "hello"
        none none none none =
      [⟨"123".toList, "456".toList, ['I'], "Chrome".toList,
        " hello".toList⟩] ∧
    SearchRecordSpec "xx123 456 I Chrome: hello" "hello"
        none none none none = [] :=
  ⟨by decide, by decide, by decide⟩

/-- C7 amended: `SearchLogcatRecord` returns the entries arising from
regex-search matches of the grammar anywhere in the record (`re.findall`
semantics, so a match may start mid-line), kept exactly when the message
group contains `message` and each supplied filter equals its field;
non-matching text contributes no entries and raises no error.  On
`"123 456 I Chrome: hello world"` with message `"hello"`, thread id
`"123"` yields exactly one entry and `"999"` yields none. -/
theorem C7_search_record :
    (SearchLogcatRecord "123 456 I Chrome: hello world" "hello"
        (some "123") none none none =
      [⟨"123".toList, "456".toList, ['I'], "Chrome".toList,
        " hello world".toList⟩]) ∧
    (SearchLogcatRecord "123 456 I Chrome: hello world" "hello"
        (some "999") none none none = []) ∧
    (∀ (record message : String) (tid pid lev comp : Option String)
        (f : LogcatFields),
      f ∈ SearchLogcatRecord record message tid pid lev comp →
        f ∈ findAll record.toList ∧
        optFilterPasses tid f.tid = true ∧
        optFilterPasses pid f.pid = true ∧
        optFilterPasses lev f.log_lev = true ∧
        optFilterPasses comp f.comp = true ∧
        message.toList <:+: f.msg) := by
  refine ⟨by decide, by decide, ?_⟩
  intro record message tid pid lev comp f hf
  rw [SearchLogcatRecord, List.mem_filter] at hf
  obtain ⟨hmem, hcond⟩ := hf
  simp only [Bool.and_eq_true, decide_eq_true_eq] at hcond
  exact ⟨hmem, hcond.1.1.1.1, hcond.1.1.1.2, hcond.1.1.2, hcond.1.2,
    hcond.2⟩

theorem C7_search_record_witness :
    (⟨"123".toList, "456".toList, ['I'], "Chrome".toList,
        " hello world".toList⟩ : LogcatFields) ∈
      findAll "123 456 I Chrome: hello world".toList ∧
    "hello".toList <:+: " hello world".toList :=
  ⟨(C7_search_record.2.2 "123 456 I Chrome: hello world" "hello"
      (some "123") none none none
      ⟨"123".toList, "456".toList, ['I'], "Chrome".toList,
        " hello world".toList⟩ (by decide)).1,
   (C7_search_record.2.2 "123 456 I Chrome: hello world" "hello"
      (some "123") none none none
      ⟨"123".toList, "456".toList, ['I'], "Chrome".toList,
        " hello world".toList⟩ (by decide)).2.2.2.2.2⟩
